import Mathlib

/-!
Verification of the wirescope real-time log stream engine.

Shallow embedding of the frontend core: the bounded log store
(`appendLogs` in `src/hooks/useLogStream.ts`), the ingestion event
machine (listener / flush / clear of the same hook), the payload
formatter (`formatPayload` in `src/lib/format.ts`), the filter memo of
the single-file variant, the viewport projection of
`src/components/LogView.tsx`, and the settings loader.
-/

set_option maxRecDepth 8000

/-- One directional, timestamped byte-payload record from the transport
(`LogLine` in `src/types/wirescope.ts`). Bytes are naturals 0–255. -/
structure LogLine where
  when_iso : String
  interval_ms : Nat
  dir : String
  origin : String
  text : String
  raw : List Nat
  connId : String
deriving DecidableEq, Repr

/-- `MAX_LOG_LINES` from `src/constants.ts`. -/
def MAX_LOG_LINES : Nat := 6000

/-- The store update of `appendLogs` in `src/hooks/useLogStream.ts`:
given the previous store contents and the incoming batch, produce the
new store contents.  Mirrors the three branches of the source
(`total <= MAX_LOG_LINES`, `overflow >= previous.length`, and the
general case), with `Array.prototype.slice(k)` rendered as `List.drop k`
and the early return on an empty batch rendered as returning the
previous state. -/
def appendLogs (previous incoming : List LogLine) : List LogLine :=
  if incoming.length = 0 then previous
  else
    let total := previous.length + incoming.length
    if total ≤ MAX_LOG_LINES then
      previous ++ incoming
    else
      let overflow := total - MAX_LOG_LINES
      if overflow ≥ previous.length then
        incoming.drop (incoming.length - MAX_LOG_LINES)
      else
        previous.drop overflow ++ incoming

/-- Replaying a list of batches through `appendLogs`, starting from the
empty store (the hook's initial state `useState<LogLine[]>([])`). -/
def runAppends (batches : List (List LogLine)) : List LogLine :=
  batches.foldl appendLogs []

/-- When the previous store respects the capacity bound, `appendLogs`
returns exactly the suffix of `previous ++ incoming` that fits in
`MAX_LOG_LINES` lines. -/
theorem appendLogs_eq_drop (previous incoming : List LogLine)
    (h : previous.length ≤ MAX_LOG_LINES) :
    appendLogs previous incoming =
      (previous ++ incoming).drop
        (previous.length + incoming.length - MAX_LOG_LINES) := by
  simp only [appendLogs]
  split_ifs with h0 h1 h2
  · obtain rfl : incoming = [] := List.length_eq_zero.mp h0
    have hd : previous.length - MAX_LOG_LINES = 0 := by omega
    simp [hd]
  · have hd : previous.length + incoming.length - MAX_LOG_LINES = 0 := by omega
    simp [hd]
  · rw [List.drop_append_eq_append_drop, List.drop_eq_nil_of_le h2, List.nil_append]
    have he : previous.length + incoming.length - MAX_LOG_LINES - previous.length
        = incoming.length - MAX_LOG_LINES := by omega
    rw [he]
  · rw [List.drop_append_eq_append_drop]
    have hz : previous.length + incoming.length - MAX_LOG_LINES - previous.length = 0 := by
      omega
    rw [hz, List.drop_zero]

/-- Any element of the new store was already in the previous store or in
the incoming batch. -/
theorem mem_appendLogs {x : LogLine} {previous incoming : List LogLine}
    (h : x ∈ appendLogs previous incoming) : x ∈ previous ∨ x ∈ incoming := by
  simp only [appendLogs] at h
  split_ifs at h with h0 h1 h2
  · exact Or.inl h
  · exact List.mem_append.mp h
  · exact Or.inr (List.mem_of_mem_drop h)
  · rcases List.mem_append.mp h with hm | hm
    · exact Or.inl (List.mem_of_mem_drop hm)
    · exact Or.inr hm

/-- Folding batches through `appendLogs` from any in-capacity store is
the capacity-bounded suffix of the concatenation. -/
theorem foldl_appendLogs_eq_drop (batches : List (List LogLine)) :
    ∀ s : List LogLine, s.length ≤ MAX_LOG_LINES →
      batches.foldl appendLogs s =
        (s ++ batches.flatten).drop
          (s.length + batches.flatten.length - MAX_LOG_LINES) := by
  induction batches with
  | nil =>
    intro s hs
    have hd : s.length - MAX_LOG_LINES = 0 := by omega
    simp [hd]
  | cons b bs ih =>
    intro s hs
    rw [List.foldl_cons, appendLogs_eq_drop s b hs]
    have hlen : ((s ++ b).drop (s.length + b.length - MAX_LOG_LINES)).length
        ≤ MAX_LOG_LINES := by
      rw [List.length_drop, List.length_append]
      omega
    rw [ih _ hlen]
    have happ := @List.drop_append_eq_append_drop LogLine (s ++ b) bs.flatten
      (s.length + b.length - MAX_LOG_LINES)
    have hz : s.length + b.length - MAX_LOG_LINES - (s ++ b).length = 0 := by
      rw [List.length_append]
      omega
    rw [hz, List.drop_zero] at happ
    rw [← happ, List.drop_drop]
    rw [List.flatten_cons, ← List.append_assoc]
    refine congrFun (congrArg List.drop ?_) _
    simp only [List.length_drop, List.length_append]
    omega

/-- C1: after replaying any prefix of any batch sequence, the store
holds at most `MAX_LOG_LINES` (6000) frames, its size is exactly
`min(totalAppended, 6000)`, and its contents are exactly the most
recent such frames of everything appended so far, in arrival order
(the suffix of the concatenation of the batches replayed so far). -/
theorem appendLogs_capacity_suffix (batches : List (List LogLine)) (k : Nat) :
    (runAppends (batches.take k)).length ≤ MAX_LOG_LINES ∧
    (runAppends (batches.take k)).length
      = min ((batches.take k).flatten.length) MAX_LOG_LINES ∧
    runAppends (batches.take k)
      = (batches.take k).flatten.drop
          ((batches.take k).flatten.length - MAX_LOG_LINES) := by
  have h := foldl_appendLogs_eq_drop (batches.take k) []
    (by simp [MAX_LOG_LINES])
  simp only [List.nil_append, List.length_nil, Nat.zero_add] at h
  unfold runAppends
  rw [h, List.length_drop]
  refine ⟨by omega, by omega, rfl⟩

/-- C2: replaying the batches one by one ends in the same store as a
single `appendLogs` of their in-order concatenation; no reordering and
no duplication is introduced by batching. -/
theorem appendLogs_batching_equiv (s : List LogLine)
    (hs : s.length ≤ MAX_LOG_LINES) (batches : List (List LogLine)) :
    batches.foldl appendLogs s = appendLogs s batches.flatten := by
  rw [foldl_appendLogs_eq_drop batches s hs, appendLogs_eq_drop s batches.flatten hs]

/-- Sample frame used to instantiate hypothesis-bearing theorems. -/
def sampleRx : LogLine :=
  { when_iso := "2026-01-01T00:00:00.000Z"
    interval_ms := 0
    dir := "RX"
    origin := "serial"
    text := "ok"
    raw := [111, 107]
    connId := "main" }

/-- Second sample frame. -/
def sampleTx : LogLine :=
  { when_iso := "2026-01-01T00:00:01.000Z"
    interval_ms := 1000
    dir := "TX"
    origin := "serial"
    text := "ping"
    raw := [112, 105, 110, 103]
    connId := "main" }

/-- Witness for C2: the batching equivalence applied to a concrete
two-batch run from the empty store. -/
theorem appendLogs_batching_equiv_witness :
    ([] : List LogLine).length ≤ MAX_LOG_LINES ∧
      [[sampleRx], [sampleTx]].foldl appendLogs []
        = appendLogs [] [[sampleRx], [sampleTx]].flatten :=
  ⟨by decide, appendLogs_batching_equiv [] (by decide) [[sampleRx], [sampleTx]]⟩

/-! ## Ingestion event machine of `useLogStream` -/

/-- Observable state of the `useLogStream` hook: the committed store
(`logs` state) and the pending list (`pendingRef.current`). -/
structure StreamState where
  logs : List LogLine
  pending : List LogLine
deriving DecidableEq, Repr

/-- Events the hook reacts to: a transport `log` event carrying one
frame, a firing of the scheduled flush timer, and the user-triggered
`clear`. -/
inductive StreamEv where
  | recv (l : LogLine)
  | flush
  | clear
deriving DecidableEq, Repr

/-- The `listen<LogLine>('log', ...)` callback in
`src/hooks/useLogStream.ts`: a frame whose `dir` is `"SYS"` is dropped
before it reaches the pending list; any other frame is pushed onto the
pending list. -/
def onLogEvent (s : StreamState) (l : LogLine) : StreamState :=
  if l.dir = "SYS" then s
  else { s with pending := s.pending ++ [l] }

/-- `flushPending` in `src/hooks/useLogStream.ts` (non-disposed case):
an empty pending list appends nothing; otherwise the whole pending list
is taken as one batch and bulk-appended to the store. -/
def flushPending (s : StreamState) : StreamState :=
  if s.pending = [] then s
  else { logs := appendLogs s.logs s.pending, pending := [] }

/-- `clear` in `src/hooks/useLogStream.ts`: empties the pending list and
the store. -/
def clearStream (_s : StreamState) : StreamState :=
  { logs := [], pending := [] }

/-- One step of the hook's event machine. -/
def streamStep (s : StreamState) : StreamEv → StreamState
  | .recv l => onLogEvent s l
  | .flush => flushPending s
  | .clear => clearStream s

/-- Run the machine over an event trace. -/
def runStream (s : StreamState) (evs : List StreamEv) : StreamState :=
  evs.foldl streamStep s

/-- Stepping preserves "no SYS frame in logs or pending". -/
theorem streamStep_no_sys {s : StreamState}
    (h : ∀ l : LogLine, l ∈ s.logs ∨ l ∈ s.pending → l.dir ≠ "SYS")
    (e : StreamEv) :
    ∀ l : LogLine, l ∈ (streamStep s e).logs ∨ l ∈ (streamStep s e).pending →
      l.dir ≠ "SYS" := by
  intro l hl
  cases e with
  | recv m =>
    simp only [streamStep, onLogEvent] at hl
    by_cases hm : m.dir = "SYS"
    · rw [if_pos hm] at hl
      exact h l hl
    · rw [if_neg hm] at hl
      rcases hl with hl | hl
      · exact h l (Or.inl hl)
      · rcases List.mem_append.mp hl with hl | hl
        · exact h l (Or.inr hl)
        · rw [List.mem_singleton.mp hl]
          exact hm
  | flush =>
    simp only [streamStep, flushPending] at hl
    by_cases hp : s.pending = []
    · rw [if_pos hp] at hl
      exact h l hl
    · rw [if_neg hp] at hl
      rcases hl with hl | hl
      · rcases mem_appendLogs hl with hm | hm
        · exact h l (Or.inl hm)
        · exact h l (Or.inr hm)
      · simp at hl
  | clear =>
    simp only [streamStep, clearStream] at hl
    rcases hl with hl | hl <;> simp at hl

/-- Running the machine preserves "no SYS frame in logs or pending". -/
theorem runStream_no_sys (evs : List StreamEv) :
    ∀ s : StreamState,
      (∀ m : LogLine, m ∈ s.logs ∨ m ∈ s.pending → m.dir ≠ "SYS") →
      ∀ m : LogLine,
        m ∈ (runStream s evs).logs ∨ m ∈ (runStream s evs).pending →
          m.dir ≠ "SYS" := by
  unfold runStream
  induction evs with
  | nil => intro s hs m hm; exact hs m hm
  | cons e rest ih =>
    intro s hs m hm
    exact ih (streamStep s e) (streamStep_no_sys hs e) m hm

/-- C6: over every transport event trace from the hook's initial state
(empty store, empty pending list), no frame with `dir = "SYS"` is ever
in the pending list or in any snapshot of the store: such frames are
discarded by the `log` listener before entering the pending list. -/
theorem sys_frames_never_stored (evs : List StreamEv) (l : LogLine)
    (h : l ∈ (runStream ⟨[], []⟩ evs).logs ∨ l ∈ (runStream ⟨[], []⟩ evs).pending) :
    l.dir ≠ "SYS" := by
  refine runStream_no_sys evs ⟨[], []⟩ ?_ l h
  intro m hm
  rcases hm with hm | hm <;> simp at hm

/-- A sample SYS lifecycle frame. -/
def sampleSys : LogLine :=
  { when_iso := "2026-01-01T00:00:02.000Z"
    interval_ms := 0
    dir := "SYS"
    origin := "serial"
    text := "connected"
    raw := []
    connId := "main" }

/-- A concrete trace with one RX frame, one SYS frame and a flush. -/
def sysTrace : List StreamEv :=
  [StreamEv.recv sampleRx, StreamEv.recv sampleSys, StreamEv.flush]

/-- Witness for C6 at a concrete trace: a received RX frame does reach
the store after a flush, and the theorem yields that it is not a SYS
frame. -/
theorem sys_frames_never_stored_witness :
    (sampleRx ∈ (runStream ⟨[], []⟩ sysTrace).logs ∨
      sampleRx ∈ (runStream ⟨[], []⟩ sysTrace).pending) ∧
    sampleRx.dir ≠ "SYS" :=
  ⟨Or.inl (by decide),
    sys_frames_never_stored sysTrace sampleRx (Or.inl (by decide))⟩

/-- After any step sequence, every frame in logs or pending either was
already there or arrived via a `recv` event of the trace. -/
theorem runStream_mem (evs : List StreamEv) :
    ∀ (s : StreamState) (l : LogLine),
      (l ∈ (runStream s evs).logs ∨ l ∈ (runStream s evs).pending) →
      l ∈ s.logs ∨ l ∈ s.pending ∨ StreamEv.recv l ∈ evs := by
  unfold runStream
  induction evs with
  | nil =>
    intro s l hl
    rcases hl with hl | hl
    · exact Or.inl hl
    · exact Or.inr (Or.inl hl)
  | cons e rest ih =>
    intro s l hl
    rcases ih (streamStep s e) l hl with hm | hm | hm
    · cases e with
      | recv m =>
        simp only [streamStep, onLogEvent] at hm
        by_cases hd : m.dir = "SYS"
        · rw [if_pos hd] at hm
          exact Or.inl hm
        · rw [if_neg hd] at hm
          exact Or.inl hm
      | flush =>
        simp only [streamStep, flushPending] at hm
        by_cases hp : s.pending = []
        · rw [if_pos hp] at hm
          exact Or.inl hm
        · rw [if_neg hp] at hm
          rcases mem_appendLogs hm with h' | h'
          · exact Or.inl h'
          · exact Or.inr (Or.inl h')
      | clear =>
        simp only [streamStep, clearStream] at hm
        simp at hm
    · cases e with
      | recv m =>
        simp only [streamStep, onLogEvent] at hm
        by_cases hd : m.dir = "SYS"
        · rw [if_pos hd] at hm
          exact Or.inr (Or.inl hm)
        · rw [if_neg hd] at hm
          rcases List.mem_append.mp hm with h' | h'
          · exact Or.inr (Or.inl h')
          · rw [List.mem_singleton.mp h']
            exact Or.inr (Or.inr (List.mem_cons_self _ _))
      | flush =>
        simp only [streamStep, flushPending] at hm
        by_cases hp : s.pending = []
        · rw [if_pos hp] at hm
          exact Or.inr (Or.inl hm)
        · rw [if_neg hp] at hm
          simp at hm
      | clear =>
        simp only [streamStep, clearStream] at hm
        simp at hm
    · exact Or.inr (Or.inr (List.mem_cons_of_mem _ hm))

/-- C10: `clear` empties both the committed store and the pending list,
a flush fired immediately after a clear appends nothing, and over any
event trace following a clear, every frame in the store arrived via a
transport event of that later trace — so a frame that was pending but
unflushed at the moment of the clear never appears in the store. -/
theorem clear_discards_unflushed (s : StreamState) :
    (clearStream s).logs = [] ∧
    (clearStream s).pending = [] ∧
    (streamStep (clearStream s) StreamEv.flush).logs = [] ∧
    ∀ (evs : List StreamEv) (l : LogLine),
      l ∈ (runStream (clearStream s) evs).logs → StreamEv.recv l ∈ evs := by
  refine ⟨rfl, rfl, rfl, ?_⟩
  intro evs l hl
  rcases runStream_mem evs (clearStream s) l (Or.inl hl) with hm | hm | hm
  · simp [clearStream] at hm
  · simp [clearStream] at hm
  · exact hm

/-- Witness for C10: from a state with a nonempty pending list, after a
clear followed by a new receive and a flush, the received frame is in
the store and the theorem locates its `recv` event in the post-clear
trace. -/
theorem clear_discards_unflushed_witness :
    sampleTx ∈ (runStream (clearStream ⟨[sampleRx], [sampleRx]⟩)
        [StreamEv.recv sampleTx, StreamEv.flush]).logs ∧
    StreamEv.recv sampleTx ∈ [StreamEv.recv sampleTx, StreamEv.flush] :=
  ⟨by decide,
    (clear_discards_unflushed ⟨[sampleRx], [sampleRx]⟩).2.2.2
      [StreamEv.recv sampleTx, StreamEv.flush] sampleTx (by decide)⟩

/-! ## Frame formatter (`src/lib/format.ts`) -/

/-- View mode of the payload column (`ViewMode` in
`src/types/wirescope.ts`). -/
inductive ViewMode where
  | ascii
  | hex
deriving DecidableEq, Repr

/-- Digit characters of JS `Number.prototype.toString(16)`
(lowercase `0`–`9`, `a`–`f`). -/
def hexDigitChar (n : Nat) : Char :=
  if n < 10 then Char.ofNat (48 + n) else Char.ofNat (87 + n)

/-- JS `b.toString(16)` for a natural number: most-significant-first
base-16 digit characters. -/
def natToHexChars (n : Nat) : List Char :=
  if n < 16 then [hexDigitChar n]
  else natToHexChars (n / 16) ++ [hexDigitChar (n % 16)]
decreasing_by exact Nat.div_lt_self (by omega) (by omega)

/-- One byte of the hex branch of `formatPayload`:
`byte.toString(16).toUpperCase().padStart(2, '0')`. -/
def toHexByte (b : Nat) : List Char :=
  let s := (natToHexChars b).map Char.toUpper
  List.replicate (2 - s.length) '0' ++ s

/-- Leftmost non-overlapping `String.prototype.replaceAll` with a
two-character search string `a`,`b`. -/
def replacePair (a b : Char) (rep : List Char) : List Char → List Char
  | [] => []
  | [c] => [c]
  | c :: d :: rest =>
    if c = a ∧ d = b then rep ++ replacePair a b rep rest
    else c :: replacePair a b rep (d :: rest)

/-- The `String.prototype.replaceAll` with a single-character search
string. -/
def replaceChar (a : Char) (rep : List Char) : List Char → List Char
  | [] => []
  | c :: rest =>
    if c = a then rep ++ replaceChar a rep rest
    else c :: replaceChar a rep rest

/-- The `formatPayload` function of `src/lib/format.ts`, over the
character list of the decoded text: hex mode renders the raw bytes as
two uppercase hex digits each, joined by single spaces; ascii mode
substitutes the newline markers via three `replaceAll` passes in source
order `\r\n`, then `\n`, then `\r`. -/
def formatPayload (raw : List Nat) (mode : ViewMode) (text : List Char) : List Char :=
  match mode with
  | .hex => List.intercalate [' '] (raw.map toHexByte)
  | .ascii =>
    replaceChar '\r' "␍CR ".toList
      (replaceChar '\n' "␊LF ".toList
        (replacePair '\r' '\n' "⏎CRLF ".toList text))

/-- Modelled from the spec's wording of the ascii formatter: a single
left-to-right pass that substitutes, with this precedence, a `\r\n`
pair by the one combined CRLF marker, a remaining `\n` by the LF
marker, and a remaining `\r` by the CR marker.  Under this pass a CRLF
pair is never rendered as a lone-CR marker followed by a lone-LF
marker. -/
def asciiMarkersSpec : List Char → List Char
  | [] => []
  | [c] =>
    if c = '\n' then "␊LF ".toList
    else if c = '\r' then "␍CR ".toList
    else [c]
  | c :: d :: rest =>
    if c = '\r' ∧ d = '\n' then "⏎CRLF ".toList ++ asciiMarkersSpec rest
    else if c = '\n' then "␊LF ".toList ++ asciiMarkersSpec (d :: rest)
    else if c = '\r' then "␍CR ".toList ++ asciiMarkersSpec (d :: rest)
    else c :: asciiMarkersSpec (d :: rest)

/-- A single-character replace pass distributes over list append. -/
theorem replaceChar_append (a : Char) (rep u v : List Char) :
    replaceChar a rep (u ++ v) = replaceChar a rep u ++ replaceChar a rep v := by
  induction u with
  | nil => simp [replaceChar]
  | cons c u ih =>
    by_cases hc : c = a <;> simp [replaceChar, hc, ih]

/-- A pair replace pass steps over a head that cannot start a match. -/
theorem replacePair_cons_ne {a b c : Char} (rep : List Char) (rest : List Char)
    (hc : c ≠ a) :
    replacePair a b rep (c :: rest) = c :: replacePair a b rep rest := by
  cases rest <;> simp [replacePair, hc]

/-- A pair replace pass steps over a match head whose successor does not
complete the pair. -/
theorem replacePair_cons2_ne {a b d : Char} (rep : List Char) (rest : List Char)
    (hd : d ≠ b) :
    replacePair a b rep (a :: d :: rest) = a :: replacePair a b rep (d :: rest) := by
  simp [replacePair, hd]

/-- The LF pass leaves the CRLF marker unchanged. -/
theorem rc_lf_crlf : replaceChar '\n' "␊LF ".toList "⏎CRLF ".toList = "⏎CRLF ".toList := by
  decide

/-- The CR pass leaves the CRLF marker unchanged. -/
theorem rc_cr_crlf : replaceChar '\r' "␍CR ".toList "⏎CRLF ".toList = "⏎CRLF ".toList := by
  decide

/-- The CR pass leaves the LF marker unchanged. -/
theorem rc_cr_lf : replaceChar '\r' "␍CR ".toList "␊LF ".toList = "␊LF ".toList := by
  decide

/-- A single-character replace pass on a matching head. -/
theorem replaceChar_cons_eq (a : Char) (rep t : List Char) :
    replaceChar a rep (a :: t) = rep ++ replaceChar a rep t := by
  simp [replaceChar]

/-- A single-character replace pass on a non-matching head. -/
theorem replaceChar_cons_ne (a : Char) (rep : List Char) (c : Char) (t : List Char)
    (h : c ≠ a) :
    replaceChar a rep (c :: t) = c :: replaceChar a rep t := by
  simp [replaceChar, h]

/-- The three sequential replace passes of the source equal the
single-pass marker substitution of the spec. -/
theorem ascii_passes_eq_spec (t : List Char) :
    replaceChar '\r' "␍CR ".toList
      (replaceChar '\n' "␊LF ".toList
        (replacePair '\r' '\n' "⏎CRLF ".toList t)) = asciiMarkersSpec t := by
  induction t using asciiMarkersSpec.induct with
  | case1 => rfl
  | case2 => decide
  | case3 h => decide
  | case4 c hc hcr =>
    simp [replacePair, replaceChar, asciiMarkersSpec, hc, hcr]
  | case5 c d rest h ih =>
    obtain ⟨rfl, rfl⟩ := h
    have h1 : replacePair '\r' '\n' "⏎CRLF ".toList ('\r' :: '\n' :: rest)
        = "⏎CRLF ".toList ++ replacePair '\r' '\n' "⏎CRLF ".toList rest := by
      simp [replacePair]
    have h2 : asciiMarkersSpec ('\r' :: '\n' :: rest)
        = "⏎CRLF ".toList ++ asciiMarkersSpec rest := by
      simp [asciiMarkersSpec]
    rw [h1, replaceChar_append, rc_lf_crlf, replaceChar_append, rc_cr_crlf, ih, h2]
  | case6 d rest h ih =>
    have h2 : asciiMarkersSpec ('\n' :: d :: rest)
        = "␊LF ".toList ++ asciiMarkersSpec (d :: rest) := by
      have hne : ¬(('\n' : Char) = '\r' ∧ d = '\n') := fun hx => absurd hx.1 (by decide)
      simp [asciiMarkersSpec, hne]
    rw [replacePair_cons_ne _ _ (show ('\n' : Char) ≠ '\r' by decide),
      replaceChar_cons_eq, replaceChar_append, rc_cr_lf, ih, h2]
  | case7 d rest h hcr ih =>
    have hd : d ≠ '\n' := fun hdd => h ⟨rfl, hdd⟩
    have h2 : asciiMarkersSpec ('\r' :: d :: rest)
        = "␍CR ".toList ++ asciiMarkersSpec (d :: rest) := by
      simp [asciiMarkersSpec, hd, show ¬(('\r' : Char) = '\n') from by decide]
    rw [replacePair_cons2_ne _ _ hd,
      replaceChar_cons_ne _ _ _ _ (show ('\r' : Char) ≠ '\n' by decide),
      replaceChar_cons_eq, ih, h2]
  | case8 c d rest h hc hcr ih =>
    have h2 : asciiMarkersSpec (c :: d :: rest) = c :: asciiMarkersSpec (d :: rest) := by
      simp [asciiMarkersSpec, h, hc, hcr]
    rw [replacePair_cons_ne _ _ hcr, replaceChar_cons_ne _ _ _ _ hc,
      replaceChar_cons_ne _ _ _ _ hcr, ih, h2]

/-- C7: for every input text (in particular every text containing the
sequence CR LF), the ascii branch of `formatPayload` equals the
single-pass substitution `asciiMarkersSpec`: each CR LF pair becomes
the one combined CRLF marker — never a lone-CR marker next to a
lone-LF marker — and the substitution precedence is CR LF first, then
remaining LF, then remaining CR. -/
theorem formatPayload_ascii_crlf (raw : List Nat) (text : List Char) :
    formatPayload raw ViewMode.ascii text = asciiMarkersSpec text :=
  ascii_passes_eq_spec text

/-- Value of an uppercase hexadecimal digit character, used to parse the
rendered dump back into bytes. -/
def hexDigitVal (c : Char) : Option Nat :=
  if '0' ≤ c ∧ c ≤ '9' then some (c.toNat - 48)
  else if 'A' ≤ c ∧ c ≤ 'F' then some (c.toNat - 55)
  else none

/-- Parse one two-character hex pair. -/
def parseHexPair : List Char → Option Nat
  | [hi, lo] =>
    match hexDigitVal hi, hexDigitVal lo with
    | some h, some l => some (16 * h + l)
    | _, _ => none
  | _ => none

/-- Parse a list of hex pairs. -/
def parseHexChunks : List (List Char) → Option (List Nat)
  | [] => some []
  | p :: rest =>
    match parseHexPair p, parseHexChunks rest with
    | some b, some bs => some (b :: bs)
    | _, _ => none

/-- Parse a space-separated hex dump back into its byte values; the
empty dump denotes the empty byte sequence. -/
def parseHexDump (s : List Char) : Option (List Nat) :=
  if s = [] then some []
  else parseHexChunks (s.splitOn ' ')

/-- A value below 16 renders as one hex digit. -/
theorem natToHexChars_lt16 {n : Nat} (h : n < 16) :
    natToHexChars n = [hexDigitChar n] := by
  rw [natToHexChars, if_pos h]

/-- A byte value of at least 16 renders as two hex digits. -/
theorem natToHexChars_byte {n : Nat} (h16 : 16 ≤ n) (h : n < 256) :
    natToHexChars n = [hexDigitChar (n / 16), hexDigitChar (n % 16)] := by
  rw [natToHexChars, if_neg (by omega), natToHexChars_lt16 (by omega)]
  rfl

/-- Parsing inverts the uppercased digit characters, which are all
uppercase hex digits. -/
theorem hexDigit_upper_val : ∀ d : Nat, d < 16 →
    hexDigitVal (Char.toUpper (hexDigitChar d)) = some d ∧
    Char.toUpper (hexDigitChar d) ∈ "0123456789ABCDEF".toList := by
  decide

/-- Every byte value renders as exactly two uppercase hex digit
characters, and parsing the pair returns the byte. -/
theorem toHexByte_spec {b : Nat} (h : b < 256) :
    (toHexByte b).length = 2 ∧
    (∀ c ∈ toHexByte b, c ∈ "0123456789ABCDEF".toList) ∧
    parseHexPair (toHexByte b) = some b := by
  by_cases h16 : b < 16
  · have hv := hexDigit_upper_val b (by omega)
    unfold toHexByte
    rw [natToHexChars_lt16 h16]
    simp only [List.map_cons, List.map_nil, List.length_cons, List.length_nil]
    refine ⟨rfl, ?_, ?_⟩
    · intro c hc
      cases hc with
      | head => decide
      | tail _ hc2 =>
        cases hc2 with
        | head => exact hv.2
        | tail _ hc3 => cases hc3
    · show parseHexPair ['0', Char.toUpper (hexDigitChar b)] = some b
      simp [parseHexPair, hv.1, show hexDigitVal '0' = some 0 from by decide]
  · have hvh := hexDigit_upper_val (b / 16) (by omega)
    have hvl := hexDigit_upper_val (b % 16) (by omega)
    unfold toHexByte
    rw [natToHexChars_byte (by omega) h]
    simp only [List.map_cons, List.map_nil, List.length_cons, List.length_nil]
    refine ⟨rfl, ?_, ?_⟩
    · intro c hc
      cases hc with
      | head => exact hvh.2
      | tail _ hc2 =>
        cases hc2 with
        | head => exact hvl.2
        | tail _ hc3 => cases hc3
    · show parseHexPair [Char.toUpper (hexDigitChar (b / 16)),
        Char.toUpper (hexDigitChar (b % 16))] = some b
      simp [parseHexPair, hvh.1, hvl.1]
      omega

/-- Chunkwise parsing inverts chunkwise rendering. -/
theorem parseHexChunks_map (raw : List Nat) (h : ∀ b ∈ raw, b < 256) :
    parseHexChunks (raw.map toHexByte) = some raw := by
  induction raw with
  | nil => rfl
  | cons b bs ih =>
    have hb := (toHexByte_spec (h b (List.mem_cons_self b bs))).2.2
    have hrest := ih (fun x hx => h x (List.mem_cons_of_mem _ hx))
    simp [parseHexChunks, hb, hrest]

/-- C8: for every byte sequence, the hex branch of `formatPayload`
renders each byte as exactly two uppercase hexadecimal digits,
space-separated, in original byte order, and parsing the produced hex
pairs returns exactly the original byte sequence. -/
theorem formatPayload_hex_roundTrip (raw : List Nat) (h : ∀ b ∈ raw, b < 256) :
    (∀ b ∈ raw, (toHexByte b).length = 2 ∧
        ∀ c ∈ toHexByte b, c ∈ "0123456789ABCDEF".toList) ∧
    parseHexDump (formatPayload raw ViewMode.hex []) = some raw := by
  refine ⟨fun b hb => ⟨(toHexByte_spec (h b hb)).1, (toHexByte_spec (h b hb)).2.1⟩, ?_⟩
  cases raw with
  | nil => rfl
  | cons b bs =>
    have hnosp : ∀ l ∈ (b :: bs).map toHexByte, ' ' ∉ l := by
      intro l hl hsp
      rcases List.mem_map.mp hl with ⟨x, hx, rfl⟩
      have := (toHexByte_spec (h x hx)).2.1 ' ' hsp
      exact absurd this (by decide)
    have hsplit := List.splitOn_intercalate ((b :: bs).map toHexByte) ' ' hnosp
      (by simp)
    have hlen2 := (toHexByte_spec (h b (List.mem_cons_self b bs))).1
    by_cases hs : List.intercalate [' '] ((b :: bs).map toHexByte) = []
    · exfalso
      rw [hs] at hsplit
      have hemp : List.splitOn ' ' ([] : List Char) = [[]] := rfl
      rw [hemp] at hsplit
      have hinj := List.head_eq_of_cons_eq hsplit.symm
      rw [hinj] at hlen2
      simp at hlen2
    · show parseHexDump (List.intercalate [' '] ((b :: bs).map toHexByte)) = some (b :: bs)
      rw [parseHexDump, if_neg hs, hsplit, parseHexChunks_map _ h]

/-- Witness for C8: the round trip at a concrete byte sequence covering
one-digit, boundary and maximal byte values. -/
theorem formatPayload_hex_roundTrip_witness :
    (∀ b ∈ [0, 15, 16, 171, 255], b < 256) ∧
    parseHexDump (formatPayload [0, 15, 16, 171, 255] ViewMode.hex [])
      = some [0, 15, 16, 171, 255] :=
  ⟨by decide, (formatPayload_hex_roundTrip [0, 15, 16, 171, 255] (by decide)).2⟩

/-! ## Filter memo of the single-file variant (`filtered` and
`renderLogs`) -/

/-- JS `String.prototype.includes` over character lists: some
consecutive run of `hay` starts with `needle`. -/
def includesSub (hay needle : List Char) : Bool :=
  match hay with
  | [] => needle.isEmpty
  | _ :: rest => needle.isPrefixOf hay || includesSub rest needle

/-- The `filtered` memo of the single-file variant: scope to the active
connection (`l.connId === activeConnId || activeConnId === 'all'`),
return the scoped list for an empty filter, and otherwise filter by a
compiled regex (an uncompilable pattern — the `catch` branch — leaves
the scoped list untouched) or by a substring test on the frame text.
Regex compilation (`new RegExp(filter, 'i')` inside `try`/`catch`) is
modelled by an abstract `compileRe` returning `none` exactly when the
constructor throws. -/
def filteredLogs (compileRe : String → Option (String → Bool))
    (logs : List LogLine) (activeConnId : String)
    (filter : String) (useRegex : Bool) : List LogLine :=
  let result := logs.filter fun l => l.connId == activeConnId || activeConnId == "all"
  if filter = "" then result
  else if useRegex then
    match compileRe filter with
    | some re => result.filter fun l => re l.text
    | none => result
  else
    result.filter fun l => includesSub l.text.toList filter.toList

/-- C4: with `useRegex = true` and a pattern the regex engine rejects,
the filter returns exactly the unfiltered input for the active
connection scope (the `catch` branch yields the scoped list, and no
exception escapes since the function is total), hence a non-empty
scoped input yields a non-empty result. -/
theorem invalid_regex_inert (compileRe : String → Option (String → Bool))
    (logs : List LogLine) (activeConnId pat : String)
    (hfail : compileRe pat = none) :
    filteredLogs compileRe logs activeConnId pat true
      = logs.filter (fun l => l.connId == activeConnId || activeConnId == "all") ∧
    (logs.filter (fun l => l.connId == activeConnId || activeConnId == "all") ≠ [] →
      filteredLogs compileRe logs activeConnId pat true ≠ []) := by
  have h1 : filteredLogs compileRe logs activeConnId pat true
      = logs.filter (fun l => l.connId == activeConnId || activeConnId == "all") := by
    unfold filteredLogs
    by_cases hp : pat = ""
    · simp [hp]
    · simp [hp, hfail]
  exact ⟨h1, fun hne => h1 ▸ hne⟩

/-- Witness for C4: the invalid pattern "(" with a compiler that rejects
it leaves the concrete scoped input untouched. -/
theorem invalid_regex_inert_witness :
    filteredLogs (fun _ => none) [sampleRx, sampleTx] "main" "(" true
      = [sampleRx, sampleTx] := by
  have h := (invalid_regex_inert (fun _ => none) [sampleRx, sampleTx] "main" "(" rfl).1
  rw [h]
  decide

/-- Modelled from the spec: a case-insensitive substring occurrence
test, as the claim describes the non-regex filter. -/
def includesInsensitive (needle hay : String) : Bool :=
  includesSub (hay.toList.map Char.toLower) (needle.toList.map Char.toLower)

/-- A frame whose text matches the filter only case-insensitively. -/
def sampleUpper : LogLine :=
  { when_iso := "2026-01-01T00:00:03.000Z"
    interval_ms := 5
    dir := "RX"
    origin := "serial"
    text := "HELLO WORLD"
    raw := [72, 69, 76, 76, 79]
    connId := "main" }

/-- Counterexample to C5 as stated: with `useRegex = false` and filter
"hello", the frame with text "HELLO WORLD" satisfies the
case-insensitive substring test of the claim, yet the code's filter
(`l.text.includes(filter)`, a case-sensitive test) excludes it. -/
theorem substring_filter_insensitive_counterexample :
    includesInsensitive "hello" sampleUpper.text = true ∧
    filteredLogs (fun _ => none) [sampleUpper] "main" "hello" false = [] := by
  constructor
  · decide
  · decide

/-- C5 (amended): with `useRegex = false` and a non-empty filter, a
frame is in the filtered output iff it is in the input, is in the
active connection scope, and its text contains the filter text under
case-SENSITIVE comparison — so whether a frame passes depends only on
that frame's own fields and the filter, never on the other frames. -/
theorem substring_filter_case_sensitive (compileRe : String → Option (String → Bool))
    (logs : List LogLine) (activeConnId pat : String) (l : LogLine)
    (hp : pat ≠ "") :
    l ∈ filteredLogs compileRe logs activeConnId pat false ↔
      l ∈ logs ∧ (l.connId = activeConnId ∨ activeConnId = "all") ∧
        includesSub l.text.toList pat.toList = true := by
  unfold filteredLogs
  simp [hp, List.mem_filter, and_assoc]
  tauto

/-- Witness for C5: the amended characterization at a concrete frame
and filter. -/
theorem substring_filter_case_sensitive_witness :
    ("pin" : String) ≠ "" ∧
    (sampleTx ∈ filteredLogs (fun _ => none) [sampleRx, sampleTx] "main" "pin" false ↔
      sampleTx ∈ [sampleRx, sampleTx] ∧ (sampleTx.connId = "main" ∨ "main" = "all") ∧
        includesSub sampleTx.text.toList ("pin" : String).toList = true) :=
  ⟨by decide,
    substring_filter_case_sensitive (fun _ => none) [sampleRx, sampleTx] "main" "pin"
      sampleTx (by decide)⟩

/-! ## Viewport projection of `src/components/LogView.tsx` -/

/-- `ROW_HEIGHT_PX` in `src/components/LogView.tsx`. -/
def ROW_HEIGHT_PX : Nat := 28

/-- `HEADER_HEIGHT_PX` in `src/components/LogView.tsx`. -/
def HEADER_HEIGHT_PX : Nat := 30

/-- `OVERSCAN_ROWS` in `src/components/LogView.tsx`. -/
def OVERSCAN_ROWS : Nat := 12

/-- `bodyHeight`: the table-body height the projector works with,
`Math.max(viewportHeight - HEADER_HEIGHT_PX, ROW_HEIGHT_PX * 10)`. -/
def bodyHeight (viewportHeight : Nat) : Nat :=
  max (viewportHeight - HEADER_HEIGHT_PX) (ROW_HEIGHT_PX * 10)

/-- `visibleStart`:
`Math.max(0, Math.floor(scrollTop / ROW_HEIGHT_PX) - OVERSCAN_ROWS)`
(integer subtraction may go negative before the clamp, hence the
computation over `Int`). -/
def visibleStart (scrollTop : Nat) : Nat :=
  (max 0 ((scrollTop : Int) / (ROW_HEIGHT_PX : Int) - (OVERSCAN_ROWS : Int))).toNat

/-- JS `Math.ceil(a / b)` for natural inputs. -/
def jsCeilDiv (a b : Nat) : Nat := (a + b - 1) / b

/-- `visibleEnd`:
`Math.min(totalRows, Math.ceil((scrollTop + bodyHeight) / ROW_HEIGHT_PX) + OVERSCAN_ROWS)`,
taking the already-computed body height as input. -/
def visibleEnd (totalRows scrollTop bh : Nat) : Nat :=
  min totalRows (jsCeilDiv (scrollTop + bh) ROW_HEIGHT_PX + OVERSCAN_ROWS)

/-- The `visibleRows` loop: for each index in `[s, e)`, materialize the
row if the log entry exists (the `if (!line) continue` guard). -/
def visibleRows (logs : List LogLine) (s e : Nat) : List (Nat × LogLine) :=
  (List.range' s (e - s)).filterMap fun i => (logs[i]?).map fun l => (i, l)

/-- `topSpacerHeight = visibleStart * ROW_HEIGHT_PX`. -/
def topSpacerHeight (vs : Nat) : Nat := vs * ROW_HEIGHT_PX

/-- `bottomSpacerHeight = Math.max(0, (totalRows - visibleEnd) * ROW_HEIGHT_PX)`. -/
def bottomSpacerHeight (totalRows ve : Nat) : Nat :=
  max 0 ((totalRows - ve) * ROW_HEIGHT_PX)

/-- When every requested index is in range, the materialized rows carry
exactly the requested indices. -/
theorem filterMap_rows_fst (logs : List LogLine) :
    ∀ is : List Nat, (∀ i ∈ is, i < logs.length) →
      ((is.filterMap fun i => (logs[i]?).map fun l => (i, l)).map Prod.fst) = is := by
  intro is
  induction is with
  | nil => intro _; rfl
  | cons i rest ih =>
    intro hall
    have hi : i < logs.length := hall i (List.mem_cons_self i rest)
    rw [List.filterMap_cons]
    rw [List.getElem?_eq_getElem hi]
    simp only [Option.map_some', List.map_cons]
    rw [ih fun j hj => hall j (List.mem_cons_of_mem _ hj)]

/-- C3: with row height 28, projector height 300, overscan 12, 1000
total rows and scroll offset 560, the projector materializes exactly
the rows with indices in [8, 43) — `visibleStart = 8`,
`visibleEnd = 43` — and reserves 224 px before and 26796 px after. -/
theorem viewport_projection_example (logs : List LogLine) (h : logs.length = 1000) :
    visibleStart 560 = 8 ∧
    visibleEnd 1000 560 300 = 43 ∧
    (visibleRows logs (visibleStart 560) (visibleEnd 1000 560 300)).map Prod.fst
      = List.range' 8 35 ∧
    topSpacerHeight (visibleStart 560) = 224 ∧
    bottomSpacerHeight 1000 (visibleEnd 1000 560 300) = 26796 := by
  have hs : visibleStart 560 = 8 := by decide
  have he : visibleEnd 1000 560 300 = 43 := by decide
  refine ⟨hs, he, ?_, by decide, by decide⟩
  rw [hs, he]
  show ((List.range' 8 (43 - 8)).filterMap
    fun i => (logs[i]?).map fun l => (i, l)).map Prod.fst = List.range' 8 35
  have hall : ∀ i ∈ List.range' 8 (43 - 8), i < logs.length := by
    rw [h]
    decide
  exact filterMap_rows_fst logs _ hall

/-- Witness for C3: the projection at a concrete 1000-row store. -/
theorem viewport_projection_example_witness :
    (List.replicate 1000 sampleRx).length = 1000 ∧
    (visibleStart 560 = 8 ∧
      visibleEnd 1000 560 300 = 43 ∧
      (visibleRows (List.replicate 1000 sampleRx)
        (visibleStart 560) (visibleEnd 1000 560 300)).map Prod.fst
        = List.range' 8 35 ∧
      topSpacerHeight (visibleStart 560) = 224 ∧
      bottomSpacerHeight 1000 (visibleEnd 1000 560 300) = 26796) :=
  ⟨by simp, viewport_projection_example (List.replicate 1000 sampleRx) (by simp)⟩

/-! ## Settings loader (`loadSettings`/`saveSettings`, structured
variant) -/

/-- `ConnectionMode` in `src/types/wirescope.ts`. -/
inductive ConnectionMode where
  | serial
  | socket
deriving DecidableEq, Repr

/-- `NewlineMode` in `src/types/wirescope.ts`. -/
inductive NewlineMode where
  | none
  | cr
  | lf
  | crlf
deriving DecidableEq, Repr

/-- `SerialParity` in `src/types/wirescope.ts`. -/
inductive SerialParity where
  | none
  | even
  | odd
deriving DecidableEq, Repr

/-- `SerialFlow` in `src/types/wirescope.ts`. -/
inductive SerialFlow where
  | none
  | software
  | hardware
deriving DecidableEq, Repr

/-- `SocketProto` in `src/types/wirescope.ts`. -/
inductive SocketProto where
  | tcp
  | udp
deriving DecidableEq, Repr

/-- `SerialConfig` in `src/types/wirescope.ts`. -/
structure SerialConfig where
  baud : Nat
  dataBits : Nat
  parity : SerialParity
  stopBits : Nat
  flow : SerialFlow
  append : NewlineMode
deriving DecidableEq, Repr

/-- `SocketConfig` in `src/types/wirescope.ts`. -/
structure SocketConfig where
  host : String
  port : Nat
  proto : SocketProto
  append : NewlineMode
deriving DecidableEq, Repr

/-- `AppSettings` in `src/types/wirescope.ts`. -/
structure AppSettings where
  mode : ConnectionMode
  viewMode : ViewMode
  serial : SerialConfig
  socket : SocketConfig
deriving DecidableEq, Repr

/-- A stored `Partial<SerialConfig>`: every field may be absent. -/
structure PartialSerialConfig where
  baud : Option Nat
  dataBits : Option Nat
  parity : Option SerialParity
  stopBits : Option Nat
  flow : Option SerialFlow
  append : Option NewlineMode
deriving DecidableEq, Repr

/-- A stored `Partial<SocketConfig>`. -/
structure PartialSocketConfig where
  host : Option String
  port : Option Nat
  proto : Option SocketProto
  append : Option NewlineMode
deriving DecidableEq, Repr

/-- A stored `Partial<AppSettings>`, with the nested records themselves
partial. -/
structure PartialAppSettings where
  mode : Option ConnectionMode
  viewMode : Option ViewMode
  serial : Option PartialSerialConfig
  socket : Option PartialSocketConfig
deriving DecidableEq, Repr

/-- The all-absent partial serial record (the `?? {}` fallback). -/
def emptyPartialSerial : PartialSerialConfig :=
  ⟨none, none, none, none, none, none⟩

/-- The all-absent partial socket record (the `?? {}` fallback). -/
def emptyPartialSocket : PartialSocketConfig :=
  ⟨none, none, none, none⟩

/-- `defaultSettings` from the settings module. -/
def defaultSettings : AppSettings :=
  { mode := ConnectionMode.serial
    viewMode := ViewMode.ascii
    serial :=
      { baud := 115200
        dataBits := 8
        parity := SerialParity.none
        stopBits := 1
        flow := SerialFlow.none
        append := NewlineMode.lf }
    socket :=
      { host := "127.0.0.1"
        port := 12345
        proto := SocketProto.tcp
        append := NewlineMode.lf } }

/-- The JS spread `{ ...defaults.serial, ...(parsed.serial ?? {}) }`:
each present stored field overrides the default, field by field. -/
def mergeSerial (d : SerialConfig) (p : PartialSerialConfig) : SerialConfig :=
  { baud := p.baud.getD d.baud
    dataBits := p.dataBits.getD d.dataBits
    parity := p.parity.getD d.parity
    stopBits := p.stopBits.getD d.stopBits
    flow := p.flow.getD d.flow
    append := p.append.getD d.append }

/-- The JS spread `{ ...defaults.socket, ...(parsed.socket ?? {}) }`. -/
def mergeSocket (d : SocketConfig) (p : PartialSocketConfig) : SocketConfig :=
  { host := p.host.getD d.host
    port := p.port.getD d.port
    proto := p.proto.getD d.proto
    append := p.append.getD d.append }

/-- The `loadSettings` of the structured settings module.  The stored
state is `none` when the key is absent (`!raw`), `some none` when
`JSON.parse` throws (the `catch` branch), and `some (some p)` for a
parsed partial record; the result spreads the parsed fields over the
defaults, with the nested `serial` and `socket` records merged field by
field. -/
def loadSettings (stored : Option (Option PartialAppSettings)) : AppSettings :=
  match stored with
  | none => defaultSettings
  | some none => defaultSettings
  | some (some p) =>
    { mode := p.mode.getD defaultSettings.mode
      viewMode := p.viewMode.getD defaultSettings.viewMode
      serial := mergeSerial defaultSettings.serial (p.serial.getD emptyPartialSerial)
      socket := mergeSocket defaultSettings.socket (p.socket.getD emptyPartialSocket) }

/-- The `saveSettings` of the structured settings module, over an
explicit store: `localStorage.setItem` inside `try`/`catch`, so a
failing write (second argument `false`) leaves the store unchanged and
the function still returns — no exception propagates. -/
def saveSettings (writeOk : Bool) (store : Option AppSettings)
    (s : AppSettings) : Option AppSettings :=
  if writeOk then some s else store

/-- C9: an absent stored value and a malformed stored value both load
the full defaults; for a partial record, every absent field — including
each nested serial and socket field individually — loads its default
value while present fields are taken from the store; and a failed
`saveSettings` write leaves the store unchanged instead of propagating
an exception. -/
theorem loadSettings_defaults :
    loadSettings none = defaultSettings ∧
    loadSettings (some none) = defaultSettings ∧
    (∀ p : PartialAppSettings,
      (p.mode = none → (loadSettings (some (some p))).mode = defaultSettings.mode) ∧
      (p.viewMode = none →
        (loadSettings (some (some p))).viewMode = defaultSettings.viewMode) ∧
      (p.serial = none →
        (loadSettings (some (some p))).serial = defaultSettings.serial) ∧
      (p.socket = none →
        (loadSettings (some (some p))).socket = defaultSettings.socket) ∧
      (∀ ps : PartialSerialConfig, p.serial = some ps →
        (ps.baud = none →
          (loadSettings (some (some p))).serial.baud = defaultSettings.serial.baud) ∧
        (ps.dataBits = none →
          (loadSettings (some (some p))).serial.dataBits
            = defaultSettings.serial.dataBits) ∧
        (ps.parity = none →
          (loadSettings (some (some p))).serial.parity
            = defaultSettings.serial.parity) ∧
        (ps.stopBits = none →
          (loadSettings (some (some p))).serial.stopBits
            = defaultSettings.serial.stopBits) ∧
        (ps.flow = none →
          (loadSettings (some (some p))).serial.flow = defaultSettings.serial.flow) ∧
        (ps.append = none →
          (loadSettings (some (some p))).serial.append
            = defaultSettings.serial.append)) ∧
      (∀ ps : PartialSocketConfig, p.socket = some ps →
        (ps.host = none →
          (loadSettings (some (some p))).socket.host = defaultSettings.socket.host) ∧
        (ps.port = none →
          (loadSettings (some (some p))).socket.port = defaultSettings.socket.port) ∧
        (ps.proto = none →
          (loadSettings (some (some p))).socket.proto
            = defaultSettings.socket.proto) ∧
        (ps.append = none →
          (loadSettings (some (some p))).socket.append
            = defaultSettings.socket.append))) ∧
    (∀ (store : Option AppSettings) (s : AppSettings),
      saveSettings false store s = store) := by
  refine ⟨rfl, rfl, ?_, fun _ _ => rfl⟩
  intro p
  refine ⟨?_, ?_, ?_, ?_, ?_, ?_⟩
  · intro hm
    simp [loadSettings, hm]
  · intro hm
    simp [loadSettings, hm]
  · intro hm
    simp [loadSettings, hm, mergeSerial, emptyPartialSerial]
  · intro hm
    simp [loadSettings, hm, mergeSocket, emptyPartialSocket]
  · intro ps hps
    refine ⟨?_, ?_, ?_, ?_, ?_, ?_⟩ <;>
      (intro hf; simp [loadSettings, hps, mergeSerial, hf])
  · intro ps hps
    refine ⟨?_, ?_, ?_, ?_⟩ <;>
      (intro hf; simp [loadSettings, hps, mergeSocket, hf])

/-- A concrete partial settings record: stored viewMode and socket host
only. -/
def samplePartial : PartialAppSettings :=
  { mode := none
    viewMode := some ViewMode.hex
    serial := none
    socket := some { host := some "10.0.0.1", port := none, proto := none,
                     append := none } }

/-- Witness for C9: the default-fallback implications of the theorem at
a concrete partial record with absent fields. -/
theorem loadSettings_defaults_witness :
    samplePartial.mode = none ∧
    (loadSettings (some (some samplePartial))).mode = defaultSettings.mode ∧
    samplePartial.serial = none ∧
    (loadSettings (some (some samplePartial))).serial = defaultSettings.serial :=
  ⟨rfl, (loadSettings_defaults.2.2.1 samplePartial).1 rfl, rfl,
    (loadSettings_defaults.2.2.1 samplePartial).2.2.1 rfl⟩
